import Mathlib

/-!
Verification of the Spoiler Blocker extension's content-script core
(`src/contentScript.js`), following its natural-language specification.

JavaScript strings are modelled as `List Char` (or Lean `String`, whose
`.data` is that list); JS numbers that the code uses as millisecond
timestamps, blur radii and heights are modelled as `Int`; possibly-null
JS values are modelled as `Option`.  DOM elements are modelled by the
record of exactly the observable state the content script touches
(class list, `data-sb-mask-mode`, the inline style properties it sets,
and the number of `.sb-overlay` children it inserts).
-/

namespace SpoilerBlocker

/-! ## JS string helpers -/

/-- JS `String.prototype.trim`, on the char-list model of a string. -/
def trimL (l : List Char) : List Char :=
  ((l.dropWhile Char.isWhitespace).reverse.dropWhile Char.isWhitespace).reverse

/-- Case folding used by the regex `i` flag (ASCII case folding). -/
def lowerL (l : List Char) : List Char := l.map Char.toLower

/-- JS regex word character, `\w` = `[A-Za-z0-9_]`. -/
def isWordChar (c : Char) : Bool :=
  ('a' ≤ c && c ≤ 'z') || ('A' ≤ c && c ≤ 'Z') || ('0' ≤ c && c ≤ '9') || c == '_'

/-! ## Matcher Builder (`buildRegex`, contentScript.js lines 73–82) -/

/-- The characters escaped by `k.replace(/[.*+?^${}()|[\]\\]/g, '\\$&')`. -/
def regexSpecials : List Char :=
  ['.', '*', '+', '?', '^', '$', '\x7b', '\x7d', '(', ')', '|', '[', ']', '\\']

/-- One step of the escaping `replace`: a special character becomes
backslash-plus-itself, any other character is kept. -/
def escapeChar (c : Char) : List Char :=
  if regexSpecials.contains c then ['\\', c] else [c]

/-- `k.replace(/[.*+?^${}()|[\]\\]/g, '\\$&')` (contentScript.js line 78). -/
def escapeRegex (k : List Char) : List Char := (k.map escapeChar).flatten

/-- How the regex engine reads an escaped alternative back: a backslash
makes the following character literal; other characters stand for
themselves.  (The alternatives produced by `buildRegex` contain no
unescaped metacharacters, so they are matched literally.) -/
def interpretLiteral : List Char → List Char
  | [] => []
  | [c] => [c]
  | c :: d :: rest =>
    if c == '\\' then d :: interpretLiteral rest
    else c :: interpretLiteral (d :: rest)

/-- The compiled regex of contentScript.js line 80–81: the list of escaped
alternatives joined by `|`, optionally wrapped in `\b( … )\b`
(`wholeWord`), always compiled with the case-insensitive `i` flag. -/
structure CompiledRegex where
  alts : List (List Char)
  wholeWord : Bool
deriving Repr, DecidableEq

/-- Lines 75–77: `keywords.map(k => String(k || '').trim()).filter(Boolean)`. -/
def keptKeywords (keywords : List String) : List (List Char) :=
  (keywords.map (fun k => trimL k.data)).filter (fun k => !k.isEmpty)

/-- `buildRegex(keywords, partial)` (contentScript.js lines 73–82).
Returns `none` for an empty keyword array or when every keyword is blank
after trimming; otherwise the pattern
`\b(${escaped.join('|')})\b` (`partial` false) or `(${escaped.join('|')})`
(`partial` true) with flag `'i'`. -/
def buildRegex (keywords : List String) (fuzzy : Bool) : Option CompiledRegex :=
  if keywords.length == 0 then none
  else if ((keptKeywords keywords).map escapeRegex).length == 0 then none
  else some { alts := (keptKeywords keywords).map escapeRegex, wholeWord := !fuzzy }

/-! ## Semantics of the compiled regex

`RegExp.prototype.test` on the pattern shapes produced by `buildRegex`:
a search for any starting position at which some alternative matches
case-insensitively, with `\b` word-boundary checks when `wholeWord`. -/

/-- Whether the character at index `p` of `t` is a word character
(out of range counts as non-word, as for `\b` at the ends of the input). -/
def wordAt (t : List Char) (p : Nat) : Bool :=
  match t[p]? with
  | some c => isWordChar c
  | none => false

/-- Whether the character just before index `p` is a word character. -/
def prevWordAt (t : List Char) (p : Nat) : Bool :=
  match p with
  | 0 => false
  | q + 1 => wordAt t q

/-- JS `\b`: positions where word-ness changes between the previous and
the current character. -/
def boundaryAt (t : List Char) (p : Nat) : Bool := prevWordAt t p != wordAt t p

/-- Case-insensitive literal match of `k` at position `i` of `t`. -/
def matchAt (t k : List Char) (i : Nat) : Bool :=
  lowerL ((t.drop i).take k.length) == lowerL k

/-- `regex.test(text)` for a `CompiledRegex` (pattern
`\b(a₁|…|aₙ)\b` or `(a₁|…|aₙ)` with flag `i`). -/
def regexTest (r : CompiledRegex) (text : String) : Bool :=
  let t := text.data
  (List.range (t.length + 1)).any (fun i =>
    r.alts.any (fun a =>
      let k := interpretLiteral a
      matchAt t k i &&
        (!r.wholeWord || (boundaryAt t i && boundaryAt t (i + k.length)))))

/-! Declarative occurrence predicates used to state the spec's matching
properties. -/

/-- Whether the last character of `l` is a word character. -/
def lastIsWord (l : List Char) : Bool :=
  match l.getLast? with
  | some c => isWordChar c
  | none => false

/-- Whether the first character of `l` is a word character. -/
def headIsWord (l : List Char) : Bool :=
  match l.head? with
  | some c => isWordChar c
  | none => false

/-- `k` occurs in `t` as a case-insensitive substring. -/
def ciOccursSub (k t : List Char) : Prop :=
  ∃ pre mid post, t = pre ++ (mid ++ post) ∧ lowerL mid = lowerL k

/-- `k` occurs in `t` case-insensitively with a word boundary immediately
before and after the occurrence. -/
def ciOccursWord (k t : List Char) : Prop :=
  ∃ pre mid post, t = pre ++ (mid ++ post) ∧ lowerL mid = lowerL k ∧
    lastIsWord pre ≠ headIsWord mid ∧ lastIsWord mid ≠ headIsWord post

/-! ## Masking Engine (`maskElement` / `unmaskElement`, lines 85–134) -/

/-- The inline style properties the engine touches (`none` = property not
set on the element's inline style). -/
structure ElemStyle where
  filter : Option String := none
  color : Option String := none
  background : Option String := none
  textShadow : Option String := none
  cursor : Option String := none
  outline : Option String := none
  maxHeight : Option String := none
  overflow : Option String := none
  position : Option String := none
deriving Repr, DecidableEq

/-- A DOM element, restricted to the observable state the content script
reads or writes: its class list, the `data-sb-mask-mode` attribute, its
inline style, and how many `.sb-overlay` children it has. -/
structure Elem where
  classes : List String := []
  sbMaskMode : Option String := none
  style : ElemStyle := {}
  overlays : Nat := 0
deriving Repr, DecidableEq

/-- `Math.max(2, Number(intensity) || 8)` (line 110): `0` is falsy in JS,
so a zero intensity falls back to the default `8`. -/
def blurRadius (intensity : Int) : Int :=
  max 2 (if intensity = 0 then 8 else intensity)

/-- `Math.max(0, Number(intensity) || 0)` (line 98). -/
def collapseHeight (intensity : Int) : Int := max 0 intensity

/-- The `switch (mode)` of lines 90–114, applied to an element that has
just been marked masked.  `blackout` and `collapse` have their own cases;
every other mode value falls through to the `blur` default. -/
def applyModeStyle (e : Elem) (mode : String) (intensity : Int) : Elem :=
  if mode == "blackout" then
    { e with style := { e.style with
        color := some "transparent"
        background := some "#000"
        textShadow := some "none"
        filter := some "none" } }
  else if mode == "collapse" then
    { e with
        style := { e.style with
          maxHeight := some (toString (collapseHeight intensity) ++ "px")
          overflow := some "hidden"
          position := some "relative" }
        overlays := e.overlays + 1 }
  else
    { e with style := { e.style with
        filter := some ("blur(" ++ toString (blurRadius intensity) ++ "px)")
        textShadow := some "0 0 12px rgba(0,0,0,.5)"
        cursor := some "pointer" } }

/-- `maskElement(el, mode, intensity, debug)` (lines 85–119).  A null
element or one whose class list already contains `sb-masked` is left
untouched; otherwise the element is marked, its mask mode recorded, the
mode's style applied, and a debug outline added when `debug` is set. -/
def maskElement (el : Option Elem) (mode : String) (intensity : Int)
    (debug : Bool) : Option Elem :=
  match el with
  | none => none
  | some e =>
    if e.classes.contains "sb-masked" then some e
    else
      let e1 := applyModeStyle
        { e with classes := e.classes ++ ["sb-masked"], sbMaskMode := some mode }
        mode intensity
      some (if debug then
        { e1 with style := { e1.style with outline := some "2px dashed #ff4d4f" } }
      else e1)

/-- `unmaskElement(el)` (lines 121–134): removes the `sb-masked` class,
removes the eight listed style properties (`filter`, `color`,
`background`, `text-shadow`, `outline`, `max-height`, `overflow`,
`position` — note: not `cursor`), and removes the first `.sb-overlay`
child if one exists. -/
def unmaskElement (el : Option Elem) : Option Elem :=
  match el with
  | none => none
  | some e =>
    some { e with
      classes := e.classes.filter (fun c => !(c == "sb-masked"))
      style := { e.style with
        filter := none, color := none, background := none, textShadow := none,
        outline := none, maxHeight := none, overflow := none, position := none }
      overlays := e.overlays - 1 }

/-! ## Text Node Walker (`textNodesUnder`, lines 137–157) -/

/-- The computed style fields the node filter reads. -/
structure ComputedStyle where
  visibility : String
  display : String
deriving Repr, DecidableEq

/-- A text node's containing element, as seen by the filter: its computed
style, or `none` when `ownerDocument?.defaultView?.getComputedStyle` is
unavailable. -/
structure ParentElem where
  style : Option ComputedStyle
deriving Repr, DecidableEq

/-- A DOM text node as seen by the walker: its `nodeValue` (possibly
null) and its parent element (possibly null). -/
structure TextNode where
  nodeValue : Option String
  parent : Option ParentElem
deriving Repr, DecidableEq

/-- The `acceptNode` filter of lines 142–150: reject when the trimmed
text is missing or shorter than 2 characters, when there is no parent
element, when no computed style can be obtained, or when the parent is
`visibility: hidden` or `display: none`. -/
def acceptNode (n : TextNode) : Bool :=
  match n.nodeValue with
  | none => false
  | some v =>
    if (trimL v.data).length < 2 then false
    else
      match n.parent with
      | none => false
      | some p =>
        match p.style with
        | none => false
        | some st => !(st.visibility == "hidden") && !(st.display == "none")

/-- `textNodesUnder(root)`: the tree walker yields, in document order,
exactly the text nodes the filter accepts.  The subtree is modelled by
its document-order list of text nodes. -/
def textNodesUnder (nodes : List TextNode) : List TextNode :=
  nodes.filter acceptNode

/-- `scan(regex)` (lines 159–167): with no regex it does nothing;
otherwise it masks the parent of every accepted text node whose value
tests true.  Modelled by the list of text nodes whose parents get
masked. -/
def scan (regex : Option CompiledRegex) (nodes : List TextNode) : List TextNode :=
  match regex with
  | none => []
  | some r => (textNodesUnder nodes).filter (fun n => regexTest r (n.nodeValue.getD ""))

/-! ## Settings and the Site Gate (lines 30–61, 169–179, 189–194) -/

/-- A `siteRules` entry `{ enabled: boolean }`; `enabled` is `Option` so
that an entry with a missing `enabled` field can be expressed. -/
structure SiteRule where
  enabled : Option Bool
deriving Repr, DecidableEq

/-- A fully populated settings snapshot, as read by `runScan`. -/
structure Settings where
  enabled : Bool
  snoozeUntil : Int
  keywords : List String
  mode : String
  intensity : Int
  fuzzy : Bool
  highlightDebug : Bool
  siteRules : List (String × SiteRule)
deriving Repr, DecidableEq

/-- `location.hostname.replace(/^www\./, '')` (line 172). -/
def stripWww (h : String) : String :=
  if h.data.take 4 = "www.".data then String.mk (h.data.drop 4) else h

/-- The guard of `runScan` (lines 170–176): scanning proceeds iff the
master switch is on, the snooze window has passed, and the site rule for
the stripped hostname (if any) does not disable the site.  A rule whose
`enabled` field is missing defaults to enabled (`siteRule?.enabled ?? true`). -/
def siteGate (s : Settings) (hostname : String) (now : Int) : Bool :=
  let snoozed : Bool := decide (s.snoozeUntil > now)
  let site := stripWww hostname
  let siteEnabled : Bool :=
    match s.siteRules.lookup site with
    | some rule => rule.enabled.getD true
    | none => true
  s.enabled && !snoozed && siteEnabled

/-! ## Settings snapshot maintenance (lines 52–61 and 189–194) -/

/-- A JS settings object in which any field may be undefined: the shape
of `items` from storage and of every pushed `payload` patch. -/
structure PartialSettings where
  enabled : Option Bool := none
  snoozeUntil : Option Int := none
  keywords : Option (List String) := none
  mode : Option String := none
  intensity : Option Int := none
  fuzzy : Option Bool := none
  highlightDebug : Option Bool := none
  siteRules : Option (List (String × SiteRule)) := none
deriving Repr, DecidableEq

/-- Per-field semantics of both the object spread `{ ...s, ...p }` and
`Object.assign(s, p)`: a field defined in `p` wins, otherwise the field
of `s` is kept. -/
def jsOverride (base upd : Option α) : Option α :=
  match upd with
  | some v => some v
  | none => base

/-- `Object.assign(state, payload)` (line 191) / `{ ...DEFAULTS, ...items }`
(line 57), field by field. -/
def assignSettings (s p : PartialSettings) : PartialSettings :=
  { enabled := jsOverride s.enabled p.enabled
    snoozeUntil := jsOverride s.snoozeUntil p.snoozeUntil
    keywords := jsOverride s.keywords p.keywords
    mode := jsOverride s.mode p.mode
    intensity := jsOverride s.intensity p.intensity
    fuzzy := jsOverride s.fuzzy p.fuzzy
    highlightDebug := jsOverride s.highlightDebug p.highlightDebug
    siteRules := jsOverride s.siteRules p.siteRules }

/-- The `DEFAULTS` object (lines 41–50): every field defined. -/
def DEFAULTS : PartialSettings :=
  { enabled := some true
    snoozeUntil := some 0
    keywords := some []
    mode := some "blur"
    intensity := some 8
    fuzzy := some false
    highlightDebug := some false
    siteRules := some [] }

/-- `loadSettings` (lines 54–61): `state = { ...DEFAULTS, ...items }`. -/
def loadSettings (items : PartialSettings) : PartialSettings :=
  assignSettings DEFAULTS items

/-- A patch with no defined field. -/
def emptyPatch : PartialSettings := {}

/-- Every field of the snapshot is defined. -/
def fullyPopulated (s : PartialSettings) : Bool :=
  s.enabled.isSome && s.snoozeUntil.isSome && s.keywords.isSome &&
  s.mode.isSome && s.intensity.isSome && s.fuzzy.isSome &&
  s.highlightDebug.isSome && s.siteRules.isSome

/-! ## Scan Scheduler (`debounce`, lines 64–70)

`debounce(fn, wait)` keeps a single pending timer: every trigger clears
the pending timer and schedules `fn` at `now + wait`.  For a finite,
time-ordered list of trigger instants, the executions are therefore the
fire times `t + wait` of exactly those triggers whose successor (if any)
arrives no earlier than `t + wait`. -/

/-- The instants at which the debounced function runs, given the instants
of the triggers (assumed listed in time order). -/
def debounceExec (wait : Int) : List Int → List Int
  | [] => []
  | [t] => [t + wait]
  | t :: t' :: rest =>
    if t' < t + wait then debounceExec wait (t' :: rest)
    else (t + wait) :: debounceExec wait (t' :: rest)

/-- A burst for the 300 ms `runScan` debouncer: strictly increasing
trigger instants, consecutive ones less than 300 ms apart. -/
def burstOk : Int → List Int → Bool
  | _, [] => true
  | t, t' :: rest => (t < t' && t' < t + 300) && burstOk t' rest

/-! ## Helper lemmas -/

lemma jsOverride_isSome (base upd : Option α) (h : base.isSome = true) :
    (jsOverride base upd).isSome = true := by
  cases upd <;> simp [jsOverride, h]

lemma fullyPopulated_assign (s p : PartialSettings) (h : fullyPopulated s = true) :
    fullyPopulated (assignSettings s p) = true := by
  unfold fullyPopulated at h ⊢
  unfold assignSettings
  simp only [Bool.and_eq_true] at h ⊢
  obtain ⟨⟨⟨⟨⟨⟨⟨h1, h2⟩, h3⟩, h4⟩, h5⟩, h6⟩, h7⟩, h8⟩ := h
  exact ⟨⟨⟨⟨⟨⟨⟨jsOverride_isSome _ _ h1, jsOverride_isSome _ _ h2⟩,
    jsOverride_isSome _ _ h3⟩, jsOverride_isSome _ _ h4⟩,
    jsOverride_isSome _ _ h5⟩, jsOverride_isSome _ _ h6⟩,
    jsOverride_isSome _ _ h7⟩, jsOverride_isSome _ _ h8⟩

lemma fullyPopulated_foldl (patches : List PartialSettings) (s : PartialSettings)
    (h : fullyPopulated s = true) :
    fullyPopulated (patches.foldl assignSettings s) = true := by
  induction patches generalizing s with
  | nil => exact h
  | cons p ps ih => exact ih _ (fullyPopulated_assign s p h)

lemma maskElement_not_masked (e : Elem) (m : String) (i : Int) (d : Bool)
    (h : "sb-masked" ∉ e.classes) :
    ∃ e1, maskElement (some e) m i d = some e1 ∧
      e1.classes = e.classes ++ ["sb-masked"] ∧
      e1.overlays = e.overlays + (if m == "blackout" then 0 else if m == "collapse" then 1 else 0) := by
  by_cases h1 : m == "blackout" <;> by_cases h2 : m == "collapse" <;>
    cases d <;> simp [maskElement, applyModeStyle, h, h1, h2]

/-! ## Claim theorems -/

/-- C10: `maskElement` and `unmaskElement` both begin with a null guard
(`if (!el) return`), so calling either with a null/undefined element
returns immediately without touching any element state, for every mode,
intensity and debug flag. -/
theorem C10_null_safe_noop :
    (∀ (mode : String) (intensity : Int) (debug : Bool),
        maskElement none mode intensity debug = none) ∧
      unmaskElement none = none :=
  ⟨fun _ _ _ => rfl, rfl⟩

/-- C4: `applyMask` is idempotent — a second `maskElement` call on the
result of a first one, with arbitrary (possibly different) mode,
intensity and debug flag, returns the element state produced by the
first call unchanged: no style change, no extra overlay, same recorded
mask mode. -/
theorem C4_applyMask_idempotent (e : Elem) (m : String) (i : Int) (d : Bool)
    (m' : String) (i' : Int) (d' : Bool) :
    maskElement (maskElement (some e) m i d) m' i' d' = maskElement (some e) m i d := by
  by_cases h : "sb-masked" ∈ e.classes
  · simp [maskElement, h]
  · obtain ⟨e1, he1, hc, _⟩ := maskElement_not_masked e m i d h
    rw [he1]
    have hm : "sb-masked" ∈ e1.classes := by rw [hc]; simp
    simp [maskElement, hm]

/-- C2: the Site Gate (the guard of `runScan`) denies scanning exactly
when the master switch is off, or the snooze deadline is still in the
future (`snoozeUntil > now`), or the site rule looked up under the
hostname with a leading `www.` stripped is present with `enabled: false`.
In every other case — no rule, or a rule whose `enabled` field is
missing — it allows, and it allows again as soon as `now ≥ snoozeUntil`. -/
theorem C2_site_gate (s : Settings) (host : String) (now : Int) :
    siteGate s host now = false ↔
      s.enabled = false ∨ now < s.snoozeUntil ∨
        ∃ rule, s.siteRules.lookup (stripWww host) = some rule ∧
          rule.enabled = some false := by
  unfold siteGate
  rcases hl : s.siteRules.lookup (stripWww host) with _ | rule
  · cases he : s.enabled <;> by_cases hs : now < s.snoozeUntil <;>
      simp [hl, he, gt_iff_lt, hs]
  · rcases hre : rule.enabled with _ | b
    · cases he : s.enabled <;> by_cases hs : now < s.snoozeUntil <;>
        simp [hl, he, gt_iff_lt, hs, hre]
    · cases he : s.enabled <;> cases b <;> by_cases hs : now < s.snoozeUntil <;>
        simp [hl, he, gt_iff_lt, hs, hre]

/-- C5: after the initial load (`{ ...DEFAULTS, ...items }`), the live
snapshot stays fully populated under every sequence of pushed patches,
each applied by the field-by-field merge `Object.assign(state, payload)`;
merging is not replacement — a patch with no defined fields leaves the
snapshot exactly as it was. -/
theorem C5_snapshot_populated (items : PartialSettings)
    (patches : List PartialSettings) (s : PartialSettings) :
    fullyPopulated (patches.foldl assignSettings (loadSettings items)) = true ∧
      assignSettings s emptyPatch = s :=
  ⟨fullyPopulated_foldl patches (loadSettings items)
      (fullyPopulated_assign DEFAULTS items rfl),
    rfl⟩

/-- C6: for every burst of triggers in which consecutive triggers are
less than 300 ms apart, the 300 ms debouncer executes the scan exactly
once, 300 ms after the last trigger of the burst: every earlier pending
timer is cancelled by the next trigger, and the single execution list
also means no two scans overlap. -/
theorem C6_debounce_burst (t : Int) (ts : List Int) (h : burstOk t ts = true) :
    debounceExec 300 (t :: ts) = [ts.getLastD t + 300] := by
  induction ts generalizing t with
  | nil => simp [debounceExec, List.getLastD]
  | cons t' ts' ih =>
    unfold burstOk at h
    simp only [Bool.and_eq_true, decide_eq_true_eq] at h
    obtain ⟨⟨_, h2⟩, h3⟩ := h
    rw [debounceExec, if_pos h2, ih t' h3, List.getLastD_cons]

/-- Witness for C6: fifty-millisecond-spaced triggers 0, 100, 200 yield
one scan at 500. -/
theorem C6_debounce_burst_witness : debounceExec 300 [0, 100, 200] = [500] := by
  have h := C6_debounce_burst 0 [100, 200] (by decide)
  simpa using h

/-- A fresh element: no classes, no inline style, no overlay children. -/
def elem0 : Elem := {}

/-- C3 counterexample: in blur mode `maskElement` sets
`cursor: pointer` (line 112), but `unmaskElement` does not remove the
`cursor` property (lines 124–131 list only the other eight), so after
mask-then-unmask the cursor of an initially clean element is still
`pointer`, not its pre-mask unset state. -/
theorem C3_cursor_not_restored :
    elem0.style.cursor = none ∧
      (unmaskElement (maskElement (some elem0) "blur" 8 false)).map
        (fun e => e.style.cursor) = some (some "pointer") :=
  ⟨rfl, rfl⟩

/-- C3 (amended): for every mode and every element with no pre-existing
overlay, `unmaskElement` after `maskElement` resets the eight properties
`unmaskElement` clears (`filter`, `color`, `background`, `text-shadow`,
`outline`, `max-height`, `overflow`, `position`) to unset, removes the
inserted overlay, and removes the mask class; the `cursor` property set
by blur mode is the one touched property that is not restored. -/
theorem C3_unmask_restores (e : Elem) (mode : String) (i : Int) (d : Bool)
    (hov : e.overlays = 0) :
    ∃ e', unmaskElement (maskElement (some e) mode i d) = some e' ∧
      e'.style.filter = none ∧ e'.style.color = none ∧
      e'.style.background = none ∧ e'.style.textShadow = none ∧
      e'.style.outline = none ∧ e'.style.maxHeight = none ∧
      e'.style.overflow = none ∧ e'.style.position = none ∧
      e'.overlays = 0 ∧ "sb-masked" ∉ e'.classes := by
  by_cases h : "sb-masked" ∈ e.classes
  · simp [maskElement, h, unmaskElement, hov, List.mem_filter]
  · obtain ⟨e1, he1, hc, hov1⟩ := maskElement_not_masked e mode i d h
    rw [he1]
    refine ⟨_, rfl, rfl, rfl, rfl, rfl, rfl, rfl, rfl, rfl, ?_, ?_⟩
    · show e1.overlays - 1 = 0
      rw [hov1, hov]
      split
      · omega
      · split <;> omega
    · show "sb-masked" ∉ e1.classes.filter (fun c => !(c == "sb-masked"))
      simp [List.mem_filter]

/-- Witness for C3 (amended), at a fresh element in collapse mode with
debug highlighting. -/
theorem C3_unmask_restores_witness :
    ∃ e', unmaskElement (maskElement (some elem0) "collapse" 5 true) = some e' ∧
      e'.style.filter = none ∧ e'.style.color = none ∧
      e'.style.background = none ∧ e'.style.textShadow = none ∧
      e'.style.outline = none ∧ e'.style.maxHeight = none ∧
      e'.style.overflow = none ∧ e'.style.position = none ∧
      e'.overlays = 0 ∧ "sb-masked" ∉ e'.classes :=
  C3_unmask_restores elem0 "collapse" 5 true rfl

/-- C7 counterexample: at intensity 0, `Math.max(2, Number(intensity) || 8)`
falls back to the default 8 because `0` is falsy, so the blur filter is
`blur(8px)`, not the `blur(2px)` that the claimed radius
`max(2, intensity)` would give. -/
theorem C7_intensity_zero_fallback :
    (maskElement (some elem0) "blur" 0 false).map (fun e => e.style.filter) =
        some (some "blur(8px)") ∧
      ("blur(" ++ toString (max 2 (0 : Int)) ++ "px)" : String) = "blur(2px)" ∧
      ("blur(8px)" : String) ≠ "blur(2px)" := by
  refine ⟨rfl, by decide, by decide⟩

/-- C7 (amended): for blur mode and for every unrecognized mode value,
`maskElement` sets a blur filter whose radius is `max(2, intensity)` for
every nonzero intensity, while intensity 0 falls back to the default
radius 8 (`Number(intensity) || 8`); in either case the radius is at
least 2 (and for intensity 8 it is 8). -/
theorem C7_blur_radius (e : Elem) (mode : String) (i : Int) (d : Bool)
    (hmask : "sb-masked" ∉ e.classes)
    (hb : (mode == "blackout") = false) (hc : (mode == "collapse") = false) :
    ∃ e', maskElement (some e) mode i d = some e' ∧
      e'.style.filter =
        some ("blur(" ++ toString (if i = 0 then (8 : Int) else max 2 i) ++ "px)") ∧
      (2 : Int) ≤ (if i = 0 then (8 : Int) else max 2 i) := by
  have hr : blurRadius i = if i = 0 then (8 : Int) else max 2 i := by
    unfold blurRadius
    split <;> simp
  cases d <;>
    simp only [maskElement, applyModeStyle, hb, hc, Bool.false_eq_true, if_false,
      List.elem_eq_mem, hmask, decide_False, hr] <;>
    refine ⟨_, rfl, rfl, ?_⟩ <;>
    · split
      · omega
      · exact le_max_left 2 i

/-- Witness for C7 (amended), blur mode at intensity 5 on a fresh
element. -/
theorem C7_blur_radius_witness :
    ∃ e', maskElement (some elem0) "blur" 5 false = some e' ∧
      e'.style.filter =
        some ("blur(" ++ toString (if (5 : Int) = 0 then (8 : Int) else max 2 5) ++ "px)") ∧
      (2 : Int) ≤ (if (5 : Int) = 0 then (8 : Int) else max 2 5) :=
  C7_blur_radius elem0 "blur" 5 false (by simp [elem0]) rfl rfl

/-! ## Lemmas about the matcher -/

lemma interpretLiteral_cons_of_ne (c : Char) (l : List Char) (h : (c == '\\') = false) :
    interpretLiteral (c :: l) = c :: interpretLiteral l := by
  cases l with
  | nil => rfl
  | cons d rest =>
    simp only [interpretLiteral]
    rw [h]
    simp

lemma interpretLiteral_escape (k : List Char) : interpretLiteral (escapeRegex k) = k := by
  induction k with
  | nil => rfl
  | cons c k ih =>
    have hstep : escapeRegex (c :: k) = escapeChar c ++ escapeRegex k := by
      unfold escapeRegex
      rw [List.map_cons, List.flatten_cons]
    rw [hstep]
    by_cases hc : regexSpecials.contains c = true
    · have : escapeChar c = ['\\', c] := by unfold escapeChar; rw [if_pos hc]
      rw [this]
      show interpretLiteral ('\\' :: c :: escapeRegex k) = c :: k
      simp only [interpretLiteral]
      simp [ih]
    · have he : escapeChar c = [c] := by unfold escapeChar; rw [if_neg hc]
      have hne : (c == '\\') = false := by
        rcases hbe : c == '\\' with _ | _
        · rfl
        · exact absurd (by rw [eq_of_beq hbe]; decide) hc
      rw [he, List.singleton_append, interpretLiteral_cons_of_ne c _ hne, ih]

lemma keptKeywords_ne_nil (kws : List String) (k : List Char)
    (h : k ∈ keptKeywords kws) : k ≠ [] := by
  unfold keptKeywords at h
  have h2 := (List.mem_filter.mp h).2
  intro hnil
  rw [hnil] at h2
  simp at h2

lemma keptKeywords_eq_nil_iff (kws : List String) :
    keptKeywords kws = [] ↔ ∀ k ∈ kws, trimL k.data = [] := by
  unfold keptKeywords
  rw [List.filter_eq_nil_iff]
  constructor
  · intro h k hk
    have := h (trimL k.data) (List.mem_map.mpr ⟨k, hk, rfl⟩)
    simpa using this
  · rintro h x hx
    obtain ⟨k, hk, rfl⟩ := List.mem_map.mp hx
    simp [h k hk]

lemma wordAt_drop (t : List Char) (i : Nat) : wordAt t i = headIsWord (t.drop i) := by
  unfold wordAt headIsWord
  rw [List.head?_drop]

lemma prevWordAt_take (t : List Char) (i : Nat) (h : i ≤ t.length) :
    prevWordAt t i = lastIsWord (t.take i) := by
  unfold prevWordAt lastIsWord
  match i with
  | 0 => simp
  | q + 1 =>
    have hq : q < t.length := h
    rw [List.getLast?_take]
    simp only [Nat.succ_ne_zero, if_false, Nat.add_sub_cancel,
      List.getElem?_eq_getElem hq]
    unfold wordAt
    rw [List.getElem?_eq_getElem hq]
    rfl

lemma headIsWord_append (l l' : List Char) (h : l ≠ []) :
    headIsWord (l ++ l') = headIsWord l := by
  cases l with
  | nil => exact absurd rfl h
  | cons c cs => rfl

lemma lastIsWord_append (l l' : List Char) (h : l' ≠ []) :
    lastIsWord (l ++ l') = lastIsWord l' := by
  unfold lastIsWord
  rw [List.getLast?_append]
  rcases hl : l'.getLast? with _ | c
  · exact absurd (List.getLast?_eq_none_iff.mp hl) h
  · rfl

lemma lowerL_length (a b : List Char) (h : lowerL a = lowerL b) : a.length = b.length := by
  have := congrArg List.length h
  simpa [lowerL] using this

lemma matchAt_decomp (t k : List Char) (i : Nat) (hi : i ≤ t.length)
    (hm : matchAt t k i = true) :
    t = t.take i ++ ((t.drop i).take k.length ++ (t.drop i).drop k.length) ∧
      lowerL ((t.drop i).take k.length) = lowerL k ∧
      ((t.drop i).take k.length).length = k.length ∧
      i + k.length ≤ t.length := by
  have hl : lowerL ((t.drop i).take k.length) = lowerL k := eq_of_beq hm
  have hlen : ((t.drop i).take k.length).length = k.length := lowerL_length _ _ hl
  have hlen' : k.length ⊓ (t.length - i) = k.length := by
    have := hlen
    rwa [List.length_take, List.length_drop] at this
  refine ⟨?_, hl, hlen, ?_⟩
  · rw [List.take_append_drop, List.take_append_drop]
  · have : k.length ≤ t.length - i := by
      rcases Nat.le_total k.length (t.length - i) with h' | h'
      · exact h'
      · rw [Nat.min_eq_right h'] at hlen'; omega
    omega

lemma exists_matchAt_iff (k t : List Char) :
    (∃ i, i < t.length + 1 ∧ matchAt t k i = true) ↔ ciOccursSub k t := by
  constructor
  · rintro ⟨i, hi, hm⟩
    obtain ⟨hdecomp, hl, -, -⟩ := matchAt_decomp t k i (Nat.lt_succ_iff.mp hi) hm
    exact ⟨t.take i, (t.drop i).take k.length, (t.drop i).drop k.length, hdecomp, hl⟩
  · rintro ⟨pre, mid, post, rfl, hl⟩
    have hmidk : mid.length = k.length := lowerL_length _ _ hl
    refine ⟨pre.length, ?_, ?_⟩
    · simp [List.length_append]
      omega
    · unfold matchAt
      rw [List.drop_left, ← hmidk, List.take_left]
      exact beq_of_eq hl

lemma exists_matchAt_word_iff (k t : List Char) (hk : k ≠ []) :
    (∃ i, i < t.length + 1 ∧
        (matchAt t k i && (boundaryAt t i && boundaryAt t (i + k.length))) = true) ↔
      ciOccursWord k t := by
  have hkpos : 0 < k.length := List.length_pos.mpr hk
  constructor
  · rintro ⟨i, hi, hc⟩
    rw [Bool.and_eq_true, Bool.and_eq_true] at hc
    obtain ⟨hm, hb1, hb2⟩ := hc
    have hi' : i ≤ t.length := Nat.lt_succ_iff.mp hi
    obtain ⟨hdecomp, hl, hmlen, hik⟩ := matchAt_decomp t k i hi' hm
    set pre := t.take i with hpre
    set mid := (t.drop i).take k.length with hmid
    set post := (t.drop i).drop k.length with hpost
    have hmidne : mid ≠ [] := by
      intro hnil
      rw [hnil] at hmlen
      simp at hmlen
      omega
    have hprelen : pre.length = i := by
      rw [hpre, List.length_take]
      omega
    refine ⟨pre, mid, post, hdecomp, hl, ?_, ?_⟩
    · -- before-boundary
      have e1 : prevWordAt t i = lastIsWord pre := prevWordAt_take t i hi'
      have e2 : wordAt t i = headIsWord mid := by
        rw [wordAt_drop]
        have : t.drop i = mid ++ post := by
          rw [hmid, hpost, List.take_append_drop]
        rw [this, headIsWord_append _ _ hmidne]
      have := (bne_iff_ne).mp hb1
      rw [e1, e2] at this
      exact this
    · -- after-boundary
      have e1 : prevWordAt t (i + k.length) = lastIsWord mid := by
        rw [prevWordAt_take t (i + k.length) hik]
        have : t.take (i + k.length) = pre ++ mid := by
          rw [List.take_add]
        rw [this, lastIsWord_append _ _ hmidne]
      have e2 : wordAt t (i + k.length) = headIsWord post := by
        rw [wordAt_drop]
        have : t.drop (i + k.length) = post := by
          rw [hpost, List.drop_drop]
        rw [this]
      have := (bne_iff_ne).mp hb2
      rw [e1, e2] at this
      exact this
  · rintro ⟨pre, mid, post, rfl, hl, hb1, hb2⟩
    have hmidk : mid.length = k.length := lowerL_length _ _ hl
    have hmidne : mid ≠ [] := by
      intro hnil
      rw [hnil] at hmidk
      simp at hmidk
      omega
    have hdrop : (pre ++ (mid ++ post)).drop pre.length = mid ++ post := List.drop_left _ _
    have hlen : pre.length + k.length ≤ (pre ++ (mid ++ post)).length := by
      simp [List.length_append]
      omega
    refine ⟨pre.length, ?_, ?_⟩
    · simp [List.length_append]
      omega
    · rw [Bool.and_eq_true, Bool.and_eq_true]
      refine ⟨?_, ?_, ?_⟩
      · unfold matchAt
        rw [hdrop, ← hmidk, List.take_left]
        exact beq_of_eq hl
      · apply (bne_iff_ne).mpr
        rw [prevWordAt_take _ _ (by simp [List.length_append]), List.take_left,
          wordAt_drop, hdrop, headIsWord_append _ _ hmidne]
        exact hb1
      · apply (bne_iff_ne).mpr
        have e1 : (pre ++ (mid ++ post)).take (pre.length + k.length) = pre ++ mid := by
          rw [List.take_add, List.take_left, hdrop, ← hmidk, List.take_left]
        have e2 : (pre ++ (mid ++ post)).drop (pre.length + k.length) = post := by
          rw [← List.append_assoc]
          have : pre.length + k.length = (pre ++ mid).length := by
            simp [List.length_append]
            omega
          rw [this, List.drop_left]
        rw [prevWordAt_take _ _ hlen, e1, lastIsWord_append _ _ hmidne,
          wordAt_drop, e2]
        exact hb2


/-- C1: for every keyword list compiled to a matcher (`buildRegex`
returned one), `regexTest` accepts a text exactly when some kept
(trimmed, non-blank) keyword occurs in it case-insensitively — at a whole
word with `\b` boundaries on both sides when the partial flag is false,
and as an arbitrary substring when the partial flag is true. -/
theorem C1_matcher_semantics (kws : List String) (fz : Bool) (r : CompiledRegex)
    (text : String) (h : buildRegex kws fz = some r) :
    regexTest r text = true ↔
      ∃ k, k ∈ keptKeywords kws ∧
        (if fz then ciOccursSub k text.data else ciOccursWord k text.data) := by
  have hr : r = { alts := (keptKeywords kws).map escapeRegex, wholeWord := !fz } := by
    unfold buildRegex at h
    split at h
    · exact Option.noConfusion h
    · split at h
      · exact Option.noConfusion h
      · injection h with h'
        exact h'.symm
  subst hr
  unfold regexTest
  simp only [List.any_eq_true, List.mem_range, Bool.not_not]
  cases fz with
  | true =>
    simp only [if_true, Bool.true_or, Bool.and_true]
    constructor
    · rintro ⟨i, hi, a, ha, hc⟩
      obtain ⟨k, hk, rfl⟩ := List.mem_map.mp ha
      rw [interpretLiteral_escape] at hc
      exact ⟨k, hk, (exists_matchAt_iff k text.data).mp ⟨i, hi, hc⟩⟩
    · rintro ⟨k, hk, hocc⟩
      obtain ⟨i, hi, hm⟩ := (exists_matchAt_iff k text.data).mpr hocc
      refine ⟨i, hi, escapeRegex k, List.mem_map.mpr ⟨k, hk, rfl⟩, ?_⟩
      rwa [interpretLiteral_escape]
  | false =>
    simp only [if_false, Bool.false_or]
    constructor
    · rintro ⟨i, hi, a, ha, hc⟩
      obtain ⟨k, hk, rfl⟩ := List.mem_map.mp ha
      rw [interpretLiteral_escape] at hc
      exact ⟨k, hk, (exists_matchAt_word_iff k text.data
        (keptKeywords_ne_nil kws k hk)).mp ⟨i, hi, hc⟩⟩
    · rintro ⟨k, hk, hocc⟩
      obtain ⟨i, hi, hm⟩ := (exists_matchAt_word_iff k text.data
        (keptKeywords_ne_nil kws k hk)).mpr hocc
      refine ⟨i, hi, escapeRegex k, List.mem_map.mpr ⟨k, hk, rfl⟩, ?_⟩
      rwa [interpretLiteral_escape]


/-- Witness for C1: the matcher built from `["Endgame"]` with
`partial: false` fires on "I loved Endgame too". -/
theorem C1_matcher_semantics_witness :
    regexTest { alts := [['E', 'n', 'd', 'g', 'a', 'm', 'e']], wholeWord := true }
      "I loved Endgame too" = true := by
  refine (C1_matcher_semantics ["Endgame"] false _ _ (by decide)).mpr ?_
  refine ⟨['E', 'n', 'd', 'g', 'a', 'm', 'e'], by decide, ?_⟩
  rw [if_neg (by decide)]
  exact ⟨"I loved ".data, "Endgame".data, " too".data,
    by decide, by decide, by decide, by decide⟩


/-- C8: the Matcher Builder trims every keyword, discards blanks, and
escapes regex metacharacters so keywords are matched literally
(`interpretLiteral` of each escaped alternative gives back the trimmed
keyword); it returns `none` exactly when every keyword trims to the
empty string (including the empty-list case), and `scan` with no matcher
does nothing. -/
theorem C8_matcher_builder (kws : List String) (fz : Bool) (nodes : List TextNode) :
    (buildRegex kws fz = none ↔ ∀ k ∈ kws, trimL k.data = []) ∧
      (buildRegex kws fz).all
        (fun r => r.alts == (keptKeywords kws).map escapeRegex &&
          r.alts.map interpretLiteral == keptKeywords kws) = true ∧
      scan none nodes = [] := by
  refine ⟨?_, ?_, rfl⟩
  · constructor
    · intro hn
      unfold buildRegex at hn
      split at hn
      · rename_i h0
        have : kws = [] := by simpa using h0
        subst this
        intro k hk
        cases hk
      · split at hn
        · rename_i h1
          have hkept : keptKeywords kws = [] := by
            have := h1
            simp only [beq_iff_eq, List.length_eq_zero, List.map_eq_nil_iff] at this
            exact this
          exact (keptKeywords_eq_nil_iff kws).mp hkept
        · exact Option.noConfusion hn
    · intro hall
      have hkept : keptKeywords kws = [] := (keptKeywords_eq_nil_iff kws).mpr hall
      unfold buildRegex
      rw [hkept]
      simp
  · unfold buildRegex
    split
    · rfl
    · split
      · rfl
      · simp only [Option.all]
        rw [Bool.and_eq_true]
        refine ⟨beq_self_eq_true _, ?_⟩
        apply beq_of_eq
        rw [List.map_map]
        exact (List.map_congr_left (fun x _ => interpretLiteral_escape x)).trans
          (List.map_id _)

/-- Witness for C8 at the all-blank keyword list `[" ", ""]`. -/
theorem C8_matcher_builder_witness :
    (buildRegex [" ", ""] true = none ↔
        ∀ k ∈ ([" ", ""] : List String), trimL k.data = []) ∧
      (buildRegex [" ", ""] true).all
        (fun r => r.alts == (keptKeywords [" ", ""]).map escapeRegex &&
          r.alts.map interpretLiteral == keptKeywords [" ", ""]) = true ∧
      scan none [] = [] :=
  C8_matcher_builder [" ", ""] true []

/-- C9: a text node is in the walker's output sequence iff it is a text
node of the subtree and passes the filter: its trimmed content has at
least 2 characters, it has a parent element, and that parent's computed
style exists with visibility not `hidden` and display not `none`. -/
theorem C9_walker_filter (nodes : List TextNode) (n : TextNode) :
    n ∈ textNodesUnder nodes ↔
      n ∈ nodes ∧
      (∃ v, n.nodeValue = some v ∧ 2 ≤ (trimL v.data).length) ∧
      (∃ p, n.parent = some p ∧ ∃ st, p.style = some st ∧
        st.visibility ≠ "hidden" ∧ st.display ≠ "none") := by
  unfold textNodesUnder
  rw [List.mem_filter]
  apply and_congr_right
  intro _
  unfold acceptNode
  rcases hv : n.nodeValue with _ | v
  · simp
  · rcases hp : n.parent with _ | p
    · by_cases hlen : (trimL v.data).length < 2 <;> simp [hlen]
    · rcases hs : p.style with _ | st
      · by_cases hlen : (trimL v.data).length < 2 <;> simp [hs, hlen]
      · by_cases hlen : (trimL v.data).length < 2 <;>
          simp [hs, hlen, Nat.not_lt, and_assoc]
        omega


end SpoilerBlocker
